import Mathlib

/-!
Verification of the CeloShip fleet orchestrator (wearedood/celoship-load-tester).

The repository is a browser application whose core is an orchestration loop in
`src/App.tsx` (fleet preparation, funding, transaction swarm, balance refresh,
fleet reset) over a chain-client service layer in `src/services/celoService.ts`
(current revision: the file containing `getWalletNonce` and the nonce-aware
`executeInteraction`).  The external ethers library (key parsing, balance and
nonce queries, transaction submission and confirmation) is modelled as an
oracle structure `ChainEnv`; every definition below is a direct translation of
the corresponding source function, with network effects exposed as event
traces so that ordering and frame properties can be stated.
-/

namespace CeloShip

/-- Wallet lifecycle states, from `WalletAccount.status` in `src/types.ts`. -/
inductive Status
  | idle
  | funding
  | sending
  | done
  | error
deriving DecidableEq, Repr

/-- Log severities, from `LogType` in `src/types.ts`. -/
inductive LogType
  | INFO
  | SUCCESS
  | ERROR
  | WARNING
deriving DecidableEq, Repr

/-- One log record, from `LogEntry` in `src/types.ts` (the random `id` and the
wall-clock `timestamp` are omitted: no claim mentions them). -/
structure LogEntry where
  message : String
  type : LogType
  txHash : Option String
deriving DecidableEq, Repr

/-- One controlled account, from `WalletAccount` in `src/types.ts`. -/
structure WalletAccount where
  address : String
  privateKey : String
  balance : String
  txCount : Nat
  status : Status
deriving DecidableEq, Repr

/-- Aggregate counters, from the `stats` state in `src/App.tsx`. -/
structure FleetStats where
  totalTx : Nat
  successfulTx : Nat
  failedTx : Nat
deriving DecidableEq, Repr

/-- The transaction request object handed to `wallet.sendTransaction` by the
chain client.  The ethers request type has an optional `gasLimit` field; the
fields below are the ones the service layer can populate (`toAddr` stands for
the request's `to` field, which is a reserved word here). -/
structure TxRequest where
  toAddr : String
  value : Nat
  data : String
  nonce : Option Nat
  gasLimit : Option Nat
deriving DecidableEq, Repr

/-- Outcome of one `wallet.sendTransaction` call during the swarm.  `accepted`
means the call resolved with a transaction hash (the transaction entered the
node's pool); `confirmedLater` is the environment's ground truth of whether the
network ever includes and confirms that transaction — the orchestrator never
observes this field, since `executeInteraction` returns the hash without
waiting.  `rejected` means the call threw. -/
inductive SubmitOutcome
  | accepted (hash : String) (confirmedLater : Bool)
  | rejected (reason : String)
deriving DecidableEq, Repr

/-- Outcome of one funder transfer in `fundWallets`: `ok` means
`sendTransaction` resolved and `tx.wait(1)` confirmed; `confirmFail` means the
send resolved but the confirmation wait threw; `sendFail` means the send
itself threw. -/
inductive FundOutcome
  | ok (hash : String)
  | confirmFail (hash : String)
  | sendFail
deriving DecidableEq, Repr

/-- Oracle for the external ethers chain client.  `validKey` is whether
`new Wallet(key)` succeeds; `addrOf` and `normKey` are the derived address and
normalized private key of a valid key; `balanceResult` is the formatted result
of `provider.getBalance` (`none` = the call throws); `nonceResult` is
`provider.getTransactionCount` (`none` = throws); `sendTx` resolves a swarm
submission from the sender's key and the request; `fundOutcome` resolves the
i-th funder transfer. -/
structure ChainEnv where
  validKey : String → Bool
  addrOf : String → String
  normKey : String → String
  balanceResult : String → Option String
  nonceResult : String → Option Nat
  sendTx : String → TxRequest → SubmitOutcome
  fundOutcome : Nat → FundOutcome

/-- Shorthand for an INFO entry appended by `addLog`. -/
def infoLog (msg : String) : LogEntry :=
  { message := msg, type := LogType.INFO, txHash := none }

/-- Shorthand for an ERROR entry appended by `addLog`. -/
def errLog (msg : String) : LogEntry :=
  { message := msg, type := LogType.ERROR, txHash := none }

/-- The all-zero aggregate counters `{ totalTx: 0, successfulTx: 0, failedTx: 0 }`. -/
def statsZero : FleetStats :=
  { totalTx := 0, successfulTx := 0, failedTx := 0 }

/-- Model of the JavaScript `String.prototype.trim` used by the source:
strip leading and trailing whitespace.  (Lean's own `String.trim` is not
kernel-executable, so the built-in is re-expressed over the character list.) -/
def trimJS (s : String) : String :=
  String.mk (((s.data.dropWhile Char.isWhitespace).reverse.dropWhile Char.isWhitespace).reverse)

/-- Helper for `splitLines`: accumulate the current line (reversed). -/
def splitLinesAux : List Char → List Char → List String
  | [], acc => [String.mk acc.reverse]
  | c :: cs, acc =>
    if c = '\n' then String.mk acc.reverse :: splitLinesAux cs []
    else splitLinesAux cs (c :: acc)

/-- Model of the JavaScript `importText.split('\n')` used by the source:
split on every newline, keeping empty segments. -/
def splitLines (s : String) : List String :=
  splitLinesAux s.data []

/-- `isValidPrivateKey` from celoService: `new Wallet(key)` inside a
try/catch, true iff construction succeeds. -/
def isValidPrivateKey (env : ChainEnv) (key : String) : Bool :=
  env.validKey key

/-- The fleet entry pushed by `createWalletsFromKeys` for a key that parsed:
address and private key from the constructed ethers wallet, balance "0",
txCount 0, status idle. -/
def walletFromKey (env : ChainEnv) (cleanKey : String) : WalletAccount :=
  { address := env.addrOf cleanKey
    privateKey := env.normKey cleanKey
    balance := "0"
    txCount := 0
    status := Status.idle }

/-- The `console.warn` emitted by `createWalletsFromKeys` for an invalid key,
externalized as a warning-level log entry. -/
def importWarn (key : String) : LogEntry :=
  { message := s!"Invalid key skipped during import: {key}", type := LogType.WARNING, txHash := none }

/-- `createWalletsFromKeys` from celoService: skip blank lines, trim each key,
push a wallet when `new Wallet(cleanKey)` succeeds, otherwise emit one console
warning and continue.  Returns the wallet list (the source's return value)
paired with the list of console warnings emitted. -/
def createWalletsFromKeys (env : ChainEnv) : List String → List WalletAccount × List LogEntry
  | [] => ([], [])
  | key :: rest =>
    let r := createWalletsFromKeys env rest
    if trimJS key = "" then r
    else if env.validKey (trimJS key) then (walletFromKey env (trimJS key) :: r.1, r.2)
    else (r.1, importWarn key :: r.2)

/-- `getBalance` from celoService: query the provider, format the result, and
return "0" instead of propagating a query failure. -/
def getBalance (env : ChainEnv) (address : String) : String :=
  match env.balanceResult address with
  | some bal => bal
  | none => "0"

/-- `getWalletNonce` from celoService: `provider.getTransactionCount`, with a
failure (`none`) propagated to the caller. -/
def getWalletNonce (env : ChainEnv) (address : String) : Option Nat :=
  env.nonceResult address

/-- `executeInteraction` from celoService (current revision).  It builds the
request `{ to: targetContract, value: 0, data: data || '0x', nonce }` and
submits it.  The function declares exactly four parameters; the gas limit that
`handleStartSwarm` passes as a fifth argument is not among them, so the
request's `gasLimit` field is never populated.  The request is returned
alongside the submission outcome so theorems can inspect what was handed to
the chain client (the source returns only the hash / throws). -/
def executeInteraction (env : ChainEnv) (walletData : WalletAccount)
    (targetContract : String) (data : String) (nonce : Option Nat) :
    TxRequest × SubmitOutcome :=
  let txRequest : TxRequest :=
    { toAddr := targetContract
      value := 0
      data := if data = "" then "0x" else data
      nonce := nonce
      gasLimit := none }
  (txRequest, env.sendTx walletData.privateKey txRequest)

/-- Externally observable events of `fundWallets`: `submitted i` is the
`funder.sendTransaction` call for the i-th wallet resolving with a hash;
`progress i hash` is the `onProgress(i, tx.hash)` callback, invoked after
`tx.wait(1)` confirmed; `failed i` is the `console.error` in the catch arm. -/
inductive FundEvent
  | submitted (index : Nat)
  | progress (index : Nat) (hash : String)
  | failed (index : Nat)
deriving DecidableEq, Repr

/-- The wallet index an event of `fundWallets` refers to. -/
def FundEvent.index : FundEvent → Nat
  | FundEvent.submitted i => i
  | FundEvent.progress i _ => i
  | FundEvent.failed i => i

/-- The body of the `fundWallets` loop for index `i`: try to send, wait for
one confirmation, notify only after confirmation; on any failure log and
continue. -/
def fundStep (env : ChainEnv) (i : Nat) : List FundEvent :=
  match env.fundOutcome i with
  | FundOutcome.ok h => [FundEvent.submitted i, FundEvent.progress i h]
  | FundOutcome.confirmFail _ => [FundEvent.submitted i, FundEvent.failed i]
  | FundOutcome.sendFail => [FundEvent.failed i]

/-- `fundWallets` from celoService (current revision): a strictly sequential
`for` loop over the fleet indices, one transfer in flight at a time, producing
the trace of chain-client events in program order. -/
def fundWallets (env : ChainEnv) (n : Nat) : List FundEvent :=
  (List.range n).flatMap (fundStep env)

/-- Set the status of the wallet at an index, leaving the list unchanged when
the index is out of range — the source guards with `if (updated[index])`. -/
def setStatus : List WalletAccount → Nat → Status → List WalletAccount
  | [], _, _ => []
  | w :: ws, 0, st => { w with status := st } :: ws
  | w :: ws, Nat.succ i, st => w :: setStatus ws i st

/-- Increment the `txCount` of the wallet at an index, leaving the list
unchanged when the index is out of range. -/
def incTxCount : List WalletAccount → Nat → List WalletAccount
  | [], _ => []
  | w :: ws, 0 => { w with txCount := w.txCount + 1 } :: ws
  | w :: ws, Nat.succ i => w :: incTxCount ws i

/-- The UI state the funding callback mutates: the fleet and the app log. -/
structure FundState where
  wallets : List WalletAccount
  logs : List LogEntry
deriving DecidableEq, Repr

/-- The success log entry the `handleFundFleet` callback appends. -/
def fundedLog (i : Nat) (h : String) : LogEntry :=
  { message := s!"Funded Wallet {i + 1} - Confirmed", type := LogType.SUCCESS, txHash := some h }

/-- Effect of one `fundWallets` event on the app state, from the `onProgress`
callback in `handleFundFleet`: a confirmed transfer appends a success log
entry carrying the hash and marks the wallet's status funding; the other
events do not touch the app state. -/
def fundApply (st : FundState) (e : FundEvent) : FundState :=
  match e with
  | FundEvent.progress i h =>
    { wallets := setStatus st.wallets i Status.funding
      logs := st.logs ++ [fundedLog i h] }
  | _ => st

/-- The fleet and log after `fundWallets` has run over the whole fleet with
the `handleFundFleet` callback applied at each confirmation. -/
def runFundWallets (env : ChainEnv) (st : FundState) : FundState :=
  (fundWallets env st.wallets.length).foldl fundApply st

/-- Events of the swarm phase, tagged with the wallet index of the task that
produced them.  `nonceFetch` is the one `getWalletNonce` call of a wallet
task; `submit` records the request handed to the chain client and its
outcome; the remaining constructors are the `setWallets`/`setStats`/`addLog`
updates of `handleStartSwarm`. -/
inductive SwarmEvent
  | nonceFetch (wIndex : Nat) (result : Option Nat)
  | statusSet (wIndex : Nat) (st : Status)
  | submit (wIndex : Nat) (req : TxRequest) (outcome : SubmitOutcome)
  | logEntry (e : LogEntry)
  | statsSucc
  | statsFail
  | txCountInc (wIndex : Nat)
deriving DecidableEq, Repr

/-- The run configuration `handleStartSwarm` reads. -/
structure SwarmConfig where
  targetContract : String
  interactionsPerWallet : Nat
  customData : String
  gasLimit : Nat
deriving DecidableEq, Repr

/-- One iteration of the per-wallet swarm loop in `handleStartSwarm`: mark the
wallet sending, call `executeInteraction(wallet, target, customData, nonce++,
gasLimit)` (the fifth argument is dropped by the four-parameter callee), then
on a resolved hash log success and bump the stats and the wallet's txCount,
and on a throw log the failure, bump the stats, and mark the wallet error. -/
def swarmIterEvents (env : ChainEnv) (cfg : SwarmConfig) (wIndex : Nat)
    (wallet : WalletAccount) (nonce : Nat) (i : Nat) : List SwarmEvent :=
  let r := executeInteraction env wallet cfg.targetContract cfg.customData (some nonce)
  SwarmEvent.statusSet wIndex Status.sending ::
  SwarmEvent.submit wIndex r.1 r.2 ::
  match r.2 with
  | SubmitOutcome.accepted h _ =>
    [SwarmEvent.logEntry { message := s!"[W{wIndex + 1}] Tx {i + 1}/{cfg.interactionsPerWallet} confirmed"
                           type := LogType.SUCCESS, txHash := some h },
     SwarmEvent.statsSucc,
     SwarmEvent.txCountInc wIndex]
  | SubmitOutcome.rejected reason =>
    [SwarmEvent.logEntry { message := s!"[W{wIndex + 1}] Tx Failed: {reason}"
                           type := LogType.ERROR, txHash := none },
     SwarmEvent.statsFail,
     SwarmEvent.statusSet wIndex Status.error]

/-- The per-wallet `for` loop of `handleStartSwarm`, with the locally tracked
nonce incremented by one after each submission regardless of outcome and the
iteration counter `i` advancing until `interactionsPerWallet` is exhausted
(`rem` is the number of iterations still to run). -/
def swarmLoop (env : ChainEnv) (cfg : SwarmConfig) (wIndex : Nat)
    (wallet : WalletAccount) : Nat → Nat → Nat → List SwarmEvent
  | _, _, 0 => []
  | nonce, i, rem + 1 =>
    swarmIterEvents env cfg wIndex wallet nonce i ++
    swarmLoop env cfg wIndex wallet (nonce + 1) (i + 1) rem

/-- One wallet's task in `handleStartSwarm`: fetch the start nonce once via
`getWalletNonce`; if the fetch throws, log an error and abandon only this
task; otherwise run the transaction loop seeded with the fetched nonce and
finally mark the wallet done. -/
def swarmTask (env : ChainEnv) (cfg : SwarmConfig) (wIndex : Nat)
    (wallet : WalletAccount) : List SwarmEvent :=
  match getWalletNonce env wallet.address with
  | none =>
    [SwarmEvent.nonceFetch wIndex none,
     SwarmEvent.logEntry (errLog s!"[W{wIndex + 1}] Failed to fetch initial nonce.")]
  | some n0 =>
    SwarmEvent.nonceFetch wIndex (some n0) ::
    (swarmLoop env cfg wIndex wallet n0 0 cfg.interactionsPerWallet ++
     [SwarmEvent.statusSet wIndex Status.done])

/-- Effect of one swarm event on the aggregate counters, from the two
`setStats` updaters in `handleStartSwarm`: a success adds one to `totalTx`
and `successfulTx`, a failure adds one to `totalTx` and `failedTx`. -/
def applyStats (s : FleetStats) : SwarmEvent → FleetStats
  | SwarmEvent.statsSucc =>
    { totalTx := s.totalTx + 1, successfulTx := s.successfulTx + 1, failedTx := s.failedTx }
  | SwarmEvent.statsFail =>
    { totalTx := s.totalTx + 1, successfulTx := s.successfulTx, failedTx := s.failedTx + 1 }
  | _ => s

/-- The aggregate counters after a sequence of swarm events. -/
def foldStats (s : FleetStats) (l : List SwarmEvent) : FleetStats :=
  l.foldl applyStats s

/-- The whole orchestrator state owned by the App component. -/
structure AppState where
  isFunding : Bool
  isSwarming : Bool
  wallets : List WalletAccount
  stats : FleetStats
  logs : List LogEntry
deriving DecidableEq, Repr

/-- Effect of one swarm event on the orchestrator state, combining the
`setWallets`, `setStats` and `addLog` updaters of `handleStartSwarm`.  The
chain-client events (`nonceFetch`, `submit`) change no app state. -/
def applyEvent (st : AppState) : SwarmEvent → AppState
  | SwarmEvent.statusSet i s => { st with wallets := setStatus st.wallets i s }
  | SwarmEvent.txCountInc i => { st with wallets := incTxCount st.wallets i }
  | SwarmEvent.statsSucc => { st with stats := applyStats st.stats SwarmEvent.statsSucc }
  | SwarmEvent.statsFail => { st with stats := applyStats st.stats SwarmEvent.statsFail }
  | SwarmEvent.logEntry e => { st with logs := st.logs ++ [e] }
  | _ => st

/-- The swarm run over the whole fleet.  The source starts one cooperative
task per wallet (`wallets.map` then `Promise.all`); here the per-wallet traces
are concatenated in fleet order as one canonical interleaving.  Theorems that
depend on interleaving (the stats invariants) quantify over arbitrary event
sequences instead, covering every interleaving. -/
def swarmRunEvents (env : ChainEnv) (cfg : SwarmConfig) (ws : List WalletAccount) :
    List SwarmEvent :=
  ws.enum.flatMap (fun p => swarmTask env cfg p.1 p.2)

/-- `handleStartSwarm` from App: a no-op while funding or swarming is already
in flight; an error log and nothing else when the target address is empty or
the fleet is empty; otherwise reset the stats to zero, emit the four banner
logs, run every wallet task, apply all resulting updates, and append the
completion log.  Returns the new state and the chain-event trace (empty trace
= no transactions; the post-run balance refresh is `updateFleetBalances`,
modelled separately). -/
def handleStartSwarm (env : ChainEnv) (cfg : SwarmConfig) (st : AppState) :
    AppState × List SwarmEvent :=
  if st.isFunding || st.isSwarming then (st, [])
  else if cfg.targetContract = "" then
    ({ st with logs := st.logs ++ [errLog "Target Contract address required"] }, [])
  else if st.wallets.length = 0 then
    ({ st with logs := st.logs ++ [errLog "No active fleet. Generate or Fund first."] }, [])
  else
    let events := swarmRunEvents env cfg st.wallets
    let banner : List LogEntry :=
      [infoLog "INITIATING SWARM SEQUENCE...",
       infoLog s!"TARGET: {cfg.targetContract}",
       infoLog s!"INTENSITY: {cfg.interactionsPerWallet} txs per wallet",
       infoLog s!"GAS LIMIT: {cfg.gasLimit} (Estimation Skipped)"]
    let st1 : AppState :=
      { st with isSwarming := true, stats := statsZero, logs := st.logs ++ banner }
    let st2 := events.foldl applyEvent st1
    ({ st2 with
        isSwarming := false
        logs := st2.logs ++ [{ message := "SWARM COMPLETE.", type := LogType.SUCCESS, txHash := none }] },
     events)

/-- Result of `prepareFleet`: the component fleet state after the call, the
function's return value, the app log entries appended, and the console
warnings emitted while parsing. -/
structure PrepareResult where
  wallets : List WalletAccount
  returned : List WalletAccount
  logs : List LogEntry
  warnings : List LogEntry
deriving DecidableEq, Repr

/-- `prepareFleet` from App, import mode: split the textarea into lines, parse
them with `createWalletsFromKeys`; when no wallet results, log an error and
return the empty list without touching the fleet state (`setWallets` is not
reached); otherwise replace the fleet wholesale. -/
def prepareFleet (env : ChainEnv) (importText : String) (wallets0 : List WalletAccount) :
    PrepareResult :=
  let r := createWalletsFromKeys env (splitLines importText)
  if r.1.length = 0 then
    { wallets := wallets0
      returned := []
      logs := [infoLog "Parsing imported keys...", errLog "No valid keys found in import."]
      warnings := r.2 }
  else
    { wallets := r.1
      returned := r.1
      logs := [infoLog "Parsing imported keys...",
               { message := s!"Imported {r.1.length} wallets.", type := LogType.SUCCESS, txHash := none }]
      warnings := r.2 }

/-- `resetFleet` from App: clear the fleet, zero the stats, log. -/
def resetFleet (st : AppState) : AppState :=
  { st with
      wallets := []
      stats := statsZero
      logs := st.logs ++ [infoLog "Fleet reset. Ready for new configuration."] }

/-- The reset control as the user can invoke it: the button calling
`resetFleet` is rendered with `disabled = isBusy` where
`isBusy = isFunding || isSwarming`, so a click while either operation is in
flight does nothing. -/
def resetFleetClick (st : AppState) : AppState :=
  if st.isFunding || st.isSwarming then st else resetFleet st

/-- `updateFleetBalances` from App: re-query every wallet's balance in order,
replacing only the `balance` field; `getBalance` never throws (it reports "0"
on a failed query), so no failure aborts the remaining queries. -/
def updateFleetBalances (env : ChainEnv) : List WalletAccount → List WalletAccount
  | [] => []
  | w :: ws => { w with balance := getBalance env w.address } :: updateFleetBalances env ws

/-! Observation helpers over swarm traces. -/

/-- The transaction requests handed to the chain client, in order. -/
def submitReqs (l : List SwarmEvent) : List TxRequest :=
  l.filterMap fun e =>
    match e with
    | SwarmEvent.submit _ req _ => some req
    | _ => none

/-- Whether an event is a nonce fetch. -/
def isNonceFetch : SwarmEvent → Bool
  | SwarmEvent.nonceFetch _ _ => true
  | _ => false

/-- Number of `getWalletNonce` calls in a trace. -/
def countNonceFetch (l : List SwarmEvent) : Nat :=
  l.countP isNonceFetch

/-- Whether an event is a submission that resolved with a hash. -/
def isAcceptedSubmit : SwarmEvent → Bool
  | SwarmEvent.submit _ _ (SubmitOutcome.accepted _ _) => true
  | _ => false

/-- Number of submissions that resolved with a hash. -/
def countAccepted (l : List SwarmEvent) : Nat :=
  l.countP isAcceptedSubmit

/-- Whether an event is a submission the network eventually confirms. -/
def isConfirmedSubmit : SwarmEvent → Bool
  | SwarmEvent.submit _ _ (SubmitOutcome.accepted _ c) => c
  | _ => false

/-- Number of submissions the network eventually confirms and includes. -/
def countConfirmed (l : List SwarmEvent) : Nat :=
  l.countP isConfirmedSubmit

/-- Whether an event increments the txCount of wallet `i`. -/
def isTxCountIncFor (i : Nat) : SwarmEvent → Bool
  | SwarmEvent.txCountInc j => j == i
  | _ => false

/-- Number of txCount increments for wallet `i` in a trace. -/
def countTxCountInc (l : List SwarmEvent) (i : Nat) : Nat :=
  l.countP (isTxCountIncFor i)

/-- The txCount of the wallet at an index (0 when out of range). -/
def txCountAt : List WalletAccount → Nat → Nat
  | [], _ => 0
  | w :: _, 0 => w.txCount
  | _ :: ws, Nat.succ i => txCountAt ws i

/-- The status of the wallet at an index (`none` when out of range). -/
def statusAt : List WalletAccount → Nat → Option Status
  | [], _ => none
  | w :: _, 0 => some w.status
  | _ :: ws, Nat.succ i => statusAt ws i

/-! Basic trace lemmas. -/

lemma submitReqs_append (a b : List SwarmEvent) :
    submitReqs (a ++ b) = submitReqs a ++ submitReqs b := by
  simp [submitReqs, List.filterMap_append]

lemma submitReqs_iter (env : ChainEnv) (cfg : SwarmConfig) (wIndex : Nat)
    (wallet : WalletAccount) (nonce i : Nat) :
    submitReqs (swarmIterEvents env cfg wIndex wallet nonce i)
      = [(executeInteraction env wallet cfg.targetContract cfg.customData (some nonce)).1] := by
  unfold swarmIterEvents
  cases he : (executeInteraction env wallet cfg.targetContract cfg.customData (some nonce)).2 <;>
    simp [submitReqs, he]

lemma swarmLoop_nonces (env : ChainEnv) (cfg : SwarmConfig) (wIndex : Nat)
    (wallet : WalletAccount) :
    ∀ (rem n i : Nat),
      (submitReqs (swarmLoop env cfg wIndex wallet n i rem)).map TxRequest.nonce
        = (List.range rem).map (fun j => some (n + j)) := by
  intro rem
  induction rem with
  | zero => intro n i; simp [swarmLoop, submitReqs]
  | succ rem ih =>
    intro n i
    rw [swarmLoop, submitReqs_append, List.map_append, submitReqs_iter, ih (n + 1) (i + 1),
      List.range_succ_eq_map]
    simp only [List.map_cons, List.map_map, List.map_nil, List.nil_append]
    have hfun : ((fun j => some (n + j)) ∘ Nat.succ) = (fun j => some ((n + 1) + j)) := by
      funext j
      simp only [Function.comp_apply]
      congr 1
      omega
    rw [hfun]
    simp [executeInteraction]

lemma countNonceFetch_iter (env : ChainEnv) (cfg : SwarmConfig) (wIndex : Nat)
    (wallet : WalletAccount) (nonce i : Nat) :
    countNonceFetch (swarmIterEvents env cfg wIndex wallet nonce i) = 0 := by
  unfold swarmIterEvents
  cases he : (executeInteraction env wallet cfg.targetContract cfg.customData (some nonce)).2 <;>
    simp [countNonceFetch, isNonceFetch, he, List.countP_cons]

lemma countNonceFetch_loop (env : ChainEnv) (cfg : SwarmConfig) (wIndex : Nat)
    (wallet : WalletAccount) :
    ∀ (rem n i : Nat), countNonceFetch (swarmLoop env cfg wIndex wallet n i rem) = 0 := by
  intro rem
  induction rem with
  | zero => intro n i; simp [swarmLoop, countNonceFetch]
  | succ rem ih =>
    intro n i
    rw [swarmLoop]
    have h1 := countNonceFetch_iter env cfg wIndex wallet n i
    have h2 := ih (n + 1) (i + 1)
    simp only [countNonceFetch, List.countP_append] at h1 h2 ⊢
    omega

/-- C1: during a swarm run, for every wallet whose initial nonce fetch
succeeds, the nonce is fetched exactly once before that wallet's first
transaction, and the `interactionsPerWallet` transactions issued for that
wallet carry strictly ascending, contiguous nonce values starting at the
fetched initial nonce; the local nonce is incremented after each submission
regardless of outcome (the statement holds for every environment, hence for
every pattern of submission successes and failures), and the trace contains
no further nonce fetch. -/
theorem c1_nonces_fetched_once_contiguous (env : ChainEnv) (cfg : SwarmConfig)
    (wIndex : Nat) (wallet : WalletAccount) (n0 : Nat)
    (h : env.nonceResult wallet.address = some n0) :
    (submitReqs (swarmTask env cfg wIndex wallet)).map TxRequest.nonce
      = (List.range cfg.interactionsPerWallet).map (fun j => some (n0 + j))
    ∧ countNonceFetch (swarmTask env cfg wIndex wallet) = 1
    ∧ (swarmTask env cfg wIndex wallet).head?
        = some (SwarmEvent.nonceFetch wIndex (some n0)) := by
  unfold swarmTask getWalletNonce
  rw [h]
  refine ⟨?_, ?_, rfl⟩
  · have hloop := swarmLoop_nonces env cfg wIndex wallet cfg.interactionsPerWallet n0 0
    simp only [submitReqs] at hloop ⊢
    simp [List.filterMap_cons, List.filterMap_append, hloop]
  · have h1 := countNonceFetch_loop env cfg wIndex wallet cfg.interactionsPerWallet n0 0
    simp only [countNonceFetch] at h1 ⊢
    simp [List.countP_cons, List.countP_append, h1, isNonceFetch]

/-- Concrete environment for witnesses: every key valid, nonce 5, every
submission accepted and later confirmed, every funder transfer confirmed. -/
def envA : ChainEnv :=
  { validKey := fun _ => true
    addrOf := fun k => k
    normKey := fun k => k
    balanceResult := fun _ => some "1.0"
    nonceResult := fun _ => some 5
    sendTx := fun _ _ => SubmitOutcome.accepted "0xa1" true
    fundOutcome := fun _ => FundOutcome.ok "0xf0" }

/-- Concrete run configuration for witnesses. -/
def cfgA : SwarmConfig :=
  { targetContract := "0xABC", interactionsPerWallet := 3, customData := "", gasLimit := 300000 }

/-- Concrete fleet wallet for witnesses. -/
def walletA : WalletAccount :=
  { address := "0xw1", privateKey := "0xk1", balance := "0", txCount := 0, status := Status.idle }

/-- Witness for C1 at a concrete input: nonce fetched once (value 5), three
transactions with nonces 5, 6, 7. -/
theorem c1_nonces_fetched_once_contiguous_witness :
    (submitReqs (swarmTask envA cfgA 0 walletA)).map TxRequest.nonce
      = (List.range cfgA.interactionsPerWallet).map (fun j => some (5 + j))
    ∧ countNonceFetch (swarmTask envA cfgA 0 walletA) = 1
    ∧ (swarmTask envA cfgA 0 walletA).head? = some (SwarmEvent.nonceFetch 0 (some 5)) :=
  c1_nonces_fetched_once_contiguous envA cfgA 0 walletA 5 rfl

/-- C2: the claim says every swarm transaction request handed to the chain
client carries the configured gasLimit.  The code violates this:
`handleStartSwarm` passes `gasLimit` as a fifth argument, but
`executeInteraction` declares only four parameters and never populates the
request's gasLimit field — so every request carries no gas limit at all, in
particular under the configuration fixing it to 300000 (three requests, all
with `gasLimit = none`).  This contradicts the source's own comment "Skip Gas
Estimation: Pass hardcoded gasLimit" and its log line "GAS LIMIT: ...
(Estimation Skipped)". -/
theorem c2_request_carries_no_gas_limit :
    (∀ (env : ChainEnv) (w : WalletAccount) (t d : String) (n : Option Nat),
      (executeInteraction env w t d n).1.gasLimit = none)
    ∧ cfgA.gasLimit = 300000
    ∧ (submitReqs (swarmTask envA cfgA 0 walletA)).map TxRequest.gasLimit
        = [none, none, none] := by
  refine ⟨fun env w t d n => rfl, rfl, ?_⟩
  decide

/-- Environment where every submission is accepted by the node (a hash is
returned) but the network never confirms or includes the transaction. -/
def envC : ChainEnv :=
  { validKey := fun _ => true
    addrOf := fun k => k
    normKey := fun k => k
    balanceResult := fun _ => some "1.0"
    nonceResult := fun _ => some 0
    sendTx := fun _ _ => SubmitOutcome.accepted "0xc1" false
    fundOutcome := fun _ => FundOutcome.ok "0xf0" }

/-- Single-transaction configuration for the C3 counterexample. -/
def cfgC : SwarmConfig :=
  { targetContract := "0xABC", interactionsPerWallet := 1, customData := "", gasLimit := 300000 }

/-- Initial app state with one idle wallet for the C3 counterexample. -/
def stC : AppState :=
  { isFunding := false, isSwarming := false, wallets := [walletA], stats := statsZero, logs := [] }

/-- C3 counterexample: the claim says a wallet's txCount is incremented only
when a transaction reaches confirmed success (network confirmation of
inclusion).  In the environment `envC` no submission is ever confirmed or
included, yet after the run the wallet's txCount is 1: `executeInteraction`
returns the hash without waiting for confirmation, so txCount is bumped on
mere submission acceptance. -/
theorem c3_txcount_without_confirmation_counterexample :
    countConfirmed (swarmTask envC cfgC 0 walletA) = 0
    ∧ txCountAt (((swarmTask envC cfgC 0 walletA).foldl applyEvent stC).wallets) 0 = 1 := by
  decide

lemma txCountAt_setStatus (ws : List WalletAccount) :
    ∀ (j : Nat) (s : Status) (i : Nat), txCountAt (setStatus ws j s) i = txCountAt ws i := by
  induction ws with
  | nil => intro j s i; rfl
  | cons w ws ih =>
    intro j s i
    cases j with
    | zero => cases i <;> simp [setStatus, txCountAt]
    | succ j => cases i <;> simp [setStatus, txCountAt, ih j s]

lemma txCountAt_incTxCount_le (ws : List WalletAccount) :
    ∀ (j i : Nat), txCountAt ws i ≤ txCountAt (incTxCount ws j) i := by
  induction ws with
  | nil => intro j i; exact Nat.le_refl _
  | cons w ws ih =>
    intro j i
    cases j with
    | zero => cases i <;> simp [incTxCount, txCountAt]
    | succ j => cases i <;> simp [incTxCount, txCountAt, ih j]

lemma applyEvent_txCountAt_le (st : AppState) (e : SwarmEvent) (i : Nat) :
    txCountAt st.wallets i ≤ txCountAt (applyEvent st e).wallets i := by
  cases e <;>
    simp [applyEvent, txCountAt_setStatus, txCountAt_incTxCount_le]

lemma foldl_applyEvent_txCountAt_le (l : List SwarmEvent) :
    ∀ (st : AppState) (i : Nat),
      txCountAt st.wallets i ≤ txCountAt (l.foldl applyEvent st).wallets i := by
  induction l with
  | nil => intro st i; exact Nat.le_refl _
  | cons e l ih =>
    intro st i
    exact Nat.le_trans (applyEvent_txCountAt_le st e i) (ih (applyEvent st e) i)

lemma counts_iter (env : ChainEnv) (cfg : SwarmConfig) (wIndex : Nat)
    (wallet : WalletAccount) (nonce i : Nat) :
    countTxCountInc (swarmIterEvents env cfg wIndex wallet nonce i) wIndex
      = countAccepted (swarmIterEvents env cfg wIndex wallet nonce i) := by
  unfold swarmIterEvents
  cases he : (executeInteraction env wallet cfg.targetContract cfg.customData (some nonce)).2 <;>
    simp [countTxCountInc, countAccepted, isTxCountIncFor, isAcceptedSubmit, he, List.countP_cons]

lemma counts_loop (env : ChainEnv) (cfg : SwarmConfig) (wIndex : Nat)
    (wallet : WalletAccount) :
    ∀ (rem n i : Nat),
      countTxCountInc (swarmLoop env cfg wIndex wallet n i rem) wIndex
        = countAccepted (swarmLoop env cfg wIndex wallet n i rem) := by
  intro rem
  induction rem with
  | zero => intro n i; simp [swarmLoop, countTxCountInc, countAccepted]
  | succ rem ih =>
    intro n i
    rw [swarmLoop]
    have h1 := counts_iter env cfg wIndex wallet n i
    have h2 := ih (n + 1) (i + 1)
    simp only [countTxCountInc, countAccepted, List.countP_append] at h1 h2 ⊢
    omega

/-- C3 amended: a wallet's txCount is incremented exactly when a submission
for that wallet is accepted by the chain client (the send resolves with a
hash) — not when the network confirms inclusion — and no orchestrator event
ever lowers any wallet's txCount during a run (the fold of any event sequence
leaves every txCount at least as large as before). -/
theorem c3_txcount_tracks_accepted_submissions (env : ChainEnv) (cfg : SwarmConfig)
    (wIndex : Nat) (wallet : WalletAccount) :
    countTxCountInc (swarmTask env cfg wIndex wallet) wIndex
      = countAccepted (swarmTask env cfg wIndex wallet)
    ∧ ∀ (l : List SwarmEvent) (st : AppState) (i : Nat),
        txCountAt st.wallets i ≤ txCountAt (l.foldl applyEvent st).wallets i := by
  refine ⟨?_, fun l st i => foldl_applyEvent_txCountAt_le l st i⟩
  unfold swarmTask getWalletNonce
  cases he : env.nonceResult wallet.address with
  | none => simp [countTxCountInc, countAccepted, isTxCountIncFor, isAcceptedSubmit, List.countP_cons]
  | some n0 =>
    have h1 := counts_loop env cfg wIndex wallet cfg.interactionsPerWallet n0 0
    simp only [countTxCountInc, countAccepted, List.countP_append, List.countP_cons] at h1 ⊢
    simp [isTxCountIncFor, isAcceptedSubmit, h1]

lemma foldStats_cons (s : FleetStats) (e : SwarmEvent) (l : List SwarmEvent) :
    foldStats s (e :: l) = foldStats (applyStats s e) l := rfl

lemma foldStats_identity (l : List SwarmEvent) :
    ∀ s : FleetStats, s.totalTx = s.successfulTx + s.failedTx →
      (foldStats s l).totalTx = (foldStats s l).successfulTx + (foldStats s l).failedTx := by
  induction l with
  | nil => intro s h; exact h
  | cons e l ih =>
    intro s h
    rw [foldStats_cons]
    refine ih (applyStats s e) ?_
    cases e <;> simp [applyStats] <;> omega

lemma foldStats_mono (l : List SwarmEvent) :
    ∀ s : FleetStats,
      s.totalTx ≤ (foldStats s l).totalTx
      ∧ s.successfulTx ≤ (foldStats s l).successfulTx
      ∧ s.failedTx ≤ (foldStats s l).failedTx := by
  induction l with
  | nil => intro s; exact ⟨Nat.le_refl _, Nat.le_refl _, Nat.le_refl _⟩
  | cons e l ih =>
    intro s
    rw [foldStats_cons]
    have hstep : s.totalTx ≤ (applyStats s e).totalTx
        ∧ s.successfulTx ≤ (applyStats s e).successfulTx
        ∧ s.failedTx ≤ (applyStats s e).failedTx := by
      cases e <;> simp [applyStats]
    have htail := ih (applyStats s e)
    exact ⟨Nat.le_trans hstep.1 htail.1, Nat.le_trans hstep.2.1 htail.2.1,
      Nat.le_trans hstep.2.2 htail.2.2⟩

lemma applyEvent_stats (st : AppState) (e : SwarmEvent) :
    (applyEvent st e).stats = applyStats st.stats e := by
  cases e <;> simp [applyEvent, applyStats]

lemma foldl_applyEvent_stats (l : List SwarmEvent) :
    ∀ st : AppState, (l.foldl applyEvent st).stats = foldStats st.stats l := by
  induction l with
  | nil => intro st; rfl
  | cons e l ih =>
    intro st
    rw [List.foldl_cons, foldStats_cons, ih (applyEvent st e), applyEvent_stats]

/-- C4: after stats initialization the aggregate counters always satisfy
totalTx = successfulTx + failedTx (every state reachable within a run is the
fold of some prefix of the run's events from the zeroed counters, in any
interleaving of the wallet tasks); each counter is monotonically
non-decreasing under further events; and `handleStartSwarm` resets the
counters at the start of a run — its final stats are the fold of the run's
events from zero, independent of whatever the counters held before, and hence
satisfy the identity. -/
theorem c4_stats_identity_monotone_reset :
    (∀ l : List SwarmEvent,
      (foldStats statsZero l).totalTx
        = (foldStats statsZero l).successfulTx + (foldStats statsZero l).failedTx)
    ∧ (∀ (s : FleetStats) (l : List SwarmEvent),
        s.totalTx ≤ (foldStats s l).totalTx
        ∧ s.successfulTx ≤ (foldStats s l).successfulTx
        ∧ s.failedTx ≤ (foldStats s l).failedTx)
    ∧ (∀ (env : ChainEnv) (cfg : SwarmConfig) (st : AppState),
        st.isFunding = false → st.isSwarming = false →
        ¬ cfg.targetContract = "" → ¬ st.wallets.length = 0 →
        (handleStartSwarm env cfg st).1.stats
            = foldStats statsZero (swarmRunEvents env cfg st.wallets)
        ∧ (handleStartSwarm env cfg st).1.stats.totalTx
            = (handleStartSwarm env cfg st).1.stats.successfulTx
              + (handleStartSwarm env cfg st).1.stats.failedTx) := by
  refine ⟨fun l => foldStats_identity l statsZero rfl,
    fun s l => foldStats_mono l s, ?_⟩
  intro env cfg st hf hs ht hw
  have hbusy : (st.isFunding || st.isSwarming) = false := by rw [hf, hs]; rfl
  have hmain : (handleStartSwarm env cfg st).1.stats
      = foldStats statsZero (swarmRunEvents env cfg st.wallets) := by
    unfold handleStartSwarm
    rw [hbusy]
    simp only [Bool.false_eq_true, if_false, if_neg ht, if_neg hw]
    rw [foldl_applyEvent_stats]
  refine ⟨hmain, ?_⟩
  rw [hmain]
  exact foldStats_identity _ statsZero rfl

/-- App state with dirty counters (violating the identity) and one wallet,
for the C4 witness: the run must wipe the old counters. -/
def stD : AppState :=
  { isFunding := false
    isSwarming := false
    wallets := [walletA]
    stats := { totalTx := 7, successfulTx := 1, failedTx := 2 }
    logs := [] }

/-- Witness for C4 at a concrete input: starting from dirty counters, the run
resets them and the identity holds on the result. -/
theorem c4_stats_identity_monotone_reset_witness :
    (handleStartSwarm envA cfgA stD).1.stats
        = foldStats statsZero (swarmRunEvents envA cfgA stD.wallets)
    ∧ (handleStartSwarm envA cfgA stD).1.stats.totalTx
        = (handleStartSwarm envA cfgA stD).1.stats.successfulTx
          + (handleStartSwarm envA cfgA stD).1.stats.failedTx :=
  c4_stats_identity_monotone_reset.2.2 envA cfgA stD rfl rfl (by decide) (by decide)

/-! Lemmas about the funding loop for C5. -/

lemma fundStep_index (env : ChainEnv) (j : Nat) :
    ∀ e ∈ fundStep env j, FundEvent.index e = j := by
  intro e he
  cases ho : env.fundOutcome j <;> rw [fundStep, ho] at he <;>
    simp only [List.mem_cons, List.mem_singleton, List.not_mem_nil, or_false] at he
  · rcases he with rfl | rfl <;> rfl
  · rcases he with rfl | rfl <;> rfl
  · simp [he, FundEvent.index]

lemma fundWallets_succ (env : ChainEnv) (n : Nat) :
    fundWallets env (n + 1) = fundWallets env n ++ fundStep env n := by
  simp [fundWallets, List.range_succ, List.flatMap_append]

lemma mem_fundWallets_index_lt (env : ChainEnv) :
    ∀ (n : Nat) (e : FundEvent), e ∈ fundWallets env n → FundEvent.index e < n := by
  intro n
  induction n with
  | zero => intro e he; simp [fundWallets] at he
  | succ n ih =>
    intro e he
    rw [fundWallets_succ] at he
    rcases List.mem_append.mp he with h | h
    · exact Nat.lt_trans (ih e h) (Nat.lt_succ_self n)
    · rw [fundStep_index env n e h]; exact Nat.lt_succ_self n

lemma fundStep_sorted (env : ChainEnv) (j : Nat) :
    List.Sorted (· ≤ ·) ((fundStep env j).map FundEvent.index) := by
  cases ho : env.fundOutcome j <;>
    simp [fundStep, ho, FundEvent.index, List.sorted_cons]

lemma fundWallets_sorted (env : ChainEnv) (n : Nat) :
    List.Sorted (· ≤ ·) ((fundWallets env n).map FundEvent.index) := by
  induction n with
  | zero => simp [fundWallets]
  | succ n ih =>
    rw [fundWallets_succ, List.map_append]
    refine (List.pairwise_append).mpr ⟨ih, fundStep_sorted env n, ?_⟩
    intro a ha b hb
    rcases List.mem_map.mp ha with ⟨e, he, rfl⟩
    rcases List.mem_map.mp hb with ⟨e2, he2, rfl⟩
    have h1 := mem_fundWallets_index_lt env n e he
    have h2 := fundStep_index env n e2 he2
    omega

lemma fundStep_has_its_index (env : ChainEnv) (j : Nat) :
    ∃ e ∈ fundStep env j, FundEvent.index e = j := by
  cases ho : env.fundOutcome j with
  | ok h => exact ⟨FundEvent.submitted j, by simp [fundStep, ho], rfl⟩
  | confirmFail h => exact ⟨FundEvent.submitted j, by simp [fundStep, ho], rfl⟩
  | sendFail => exact ⟨FundEvent.failed j, by simp [fundStep, ho], rfl⟩

lemma progress_mem_fundStep (env : ChainEnv) (i j : Nat) (h : String) :
    FundEvent.progress i h ∈ fundStep env j
      ↔ (j = i ∧ env.fundOutcome i = FundOutcome.ok h) := by
  cases ho : env.fundOutcome j with
  | ok h2 =>
    rw [fundStep, ho]
    simp only [List.mem_cons, List.mem_singleton, List.not_mem_nil, or_false]
    constructor
    · rintro (he | he)
      · exact absurd he (by simp)
      · have hij : i = j ∧ h = h2 := by
          simpa using he
        rcases hij with ⟨rfl, rfl⟩
        exact ⟨rfl, ho⟩
    · rintro ⟨rfl, hok⟩
      rw [ho] at hok
      have : h2 = h := by
        simpa using hok
      right
      rw [this]
  | confirmFail h2 =>
    rw [fundStep, ho]
    simp only [List.mem_cons, List.mem_singleton, List.not_mem_nil, or_false]
    constructor
    · rintro (he | he) <;> exact absurd he (by simp)
    · rintro ⟨rfl, hok⟩
      rw [ho] at hok
      exact absurd hok (by simp)
  | sendFail =>
    rw [fundStep, ho]
    simp only [List.mem_singleton]
    constructor
    · intro he; exact absurd he (by simp)
    · rintro ⟨rfl, hok⟩
      rw [ho] at hok
      exact absurd hok (by simp)

lemma progress_mem_fundWallets (env : ChainEnv) (n i : Nat) (h : String) :
    FundEvent.progress i h ∈ fundWallets env n
      ↔ (i < n ∧ env.fundOutcome i = FundOutcome.ok h) := by
  unfold fundWallets
  rw [List.mem_flatMap]
  constructor
  · rintro ⟨j, hj, hmem⟩
    rcases (progress_mem_fundStep env i j h).mp hmem with ⟨rfl, hok⟩
    exact ⟨List.mem_range.mp hj, hok⟩
  · rintro ⟨hin, hok⟩
    exact ⟨i, List.mem_range.mpr hin, (progress_mem_fundStep env i i h).mpr ⟨rfl, hok⟩⟩

lemma setStatus_length (ws : List WalletAccount) :
    ∀ (j : Nat) (s : Status), (setStatus ws j s).length = ws.length := by
  induction ws with
  | nil => intro j s; rfl
  | cons w ws ih =>
    intro j s
    cases j <;> simp [setStatus, ih]

lemma statusAt_setStatus_self (ws : List WalletAccount) :
    ∀ (j : Nat) (s : Status), j < ws.length → statusAt (setStatus ws j s) j = some s := by
  induction ws with
  | nil => intro j s hj; simp at hj
  | cons w ws ih =>
    intro j s hj
    cases j with
    | zero => rfl
    | succ j =>
      simp only [setStatus, statusAt]
      exact ih j s (by simpa using hj)

lemma statusAt_setStatus_other (ws : List WalletAccount) :
    ∀ (j : Nat) (s : Status) (i : Nat), i ≠ j → statusAt (setStatus ws j s) i = statusAt ws i := by
  induction ws with
  | nil => intro j s i hij; rfl
  | cons w ws ih =>
    intro j s i hij
    cases j with
    | zero =>
      cases i with
      | zero => exact absurd rfl hij
      | succ i => rfl
    | succ j =>
      cases i with
      | zero => rfl
      | succ i =>
        simp only [setStatus, statusAt]
        exact ih j s i (by omega)

/-- Fold of the funding callback over a trace prefix. -/
def foldFund (st : FundState) (l : List FundEvent) : FundState :=
  l.foldl fundApply st

lemma fundApply_length (st : FundState) (e : FundEvent) :
    (fundApply st e).wallets.length = st.wallets.length := by
  cases e <;> simp [fundApply, setStatus_length]

lemma foldFund_length (l : List FundEvent) :
    ∀ st : FundState, (foldFund st l).wallets.length = st.wallets.length := by
  induction l with
  | nil => intro st; rfl
  | cons e l ih =>
    intro st
    rw [foldFund, List.foldl_cons]
    rw [show List.foldl fundApply (fundApply st e) l = foldFund (fundApply st e) l from rfl]
    rw [ih (fundApply st e), fundApply_length]

lemma foldFund_logs_mono (l : List FundEvent) :
    ∀ (st : FundState) (a : LogEntry), a ∈ st.logs → a ∈ (foldFund st l).logs := by
  induction l with
  | nil => intro st a ha; exact ha
  | cons e l ih =>
    intro st a ha
    rw [foldFund, List.foldl_cons]
    refine ih (fundApply st e) a ?_
    cases e <;> simp [fundApply, ha]

lemma fundApply_statusAt_other (st : FundState) (e : FundEvent) (i : Nat)
    (h : FundEvent.index e ≠ i) :
    statusAt (fundApply st e).wallets i = statusAt st.wallets i := by
  cases e with
  | progress j hh =>
    have : i ≠ j := by
      intro hc
      exact h (by rw [hc]; rfl)
    simp [fundApply, statusAt_setStatus_other st.wallets j Status.funding i this]
  | submitted j => rfl
  | failed j => rfl

lemma foldFund_statusAt_other (l : List FundEvent) :
    ∀ (st : FundState) (i : Nat), (∀ e ∈ l, FundEvent.index e ≠ i) →
      statusAt (foldFund st l).wallets i = statusAt st.wallets i := by
  induction l with
  | nil => intro st i hl; rfl
  | cons e l ih =>
    intro st i hl
    rw [foldFund, List.foldl_cons]
    rw [show List.foldl fundApply (fundApply st e) l = foldFund (fundApply st e) l from rfl]
    rw [ih (fundApply st e) i (fun e2 he2 => hl e2 (List.mem_cons_of_mem e he2))]
    exact fundApply_statusAt_other st e i (hl e (List.mem_cons_self e l))

lemma foldFund_funding_result (env : ChainEnv) :
    ∀ (n : Nat) (st : FundState) (i : Nat) (h : String),
      i < n → i < st.wallets.length → env.fundOutcome i = FundOutcome.ok h →
      statusAt (foldFund st (fundWallets env n)).wallets i = some Status.funding
      ∧ fundedLog i h ∈ (foldFund st (fundWallets env n)).logs := by
  intro n
  induction n with
  | zero => intro st i h hin; omega
  | succ n ih =>
    intro st i h hin hlen hok
    rw [fundWallets_succ, foldFund, List.foldl_append]
    rw [show List.foldl fundApply (List.foldl fundApply st (fundWallets env n)) (fundStep env n)
        = foldFund (foldFund st (fundWallets env n)) (fundStep env n) from rfl]
    rcases Nat.lt_or_ge i n with hlt | hge
    · have hmid := ih st i h hlt hlen hok
      have hother : ∀ e ∈ fundStep env n, FundEvent.index e ≠ i := by
        intro e he
        rw [fundStep_index env n e he]
        omega
      constructor
      · rw [foldFund_statusAt_other (fundStep env n) _ i hother]
        exact hmid.1
      · exact foldFund_logs_mono (fundStep env n) _ (fundedLog i h) hmid.2
    · have hi : i = n := by omega
      subst hi
      rw [fundStep, hok]
      have hlen2 : i < (foldFund st (fundWallets env i)).wallets.length := by
        rw [foldFund_length]
        exact hlen
      constructor
      · rw [show foldFund (foldFund st (fundWallets env i))
            [FundEvent.submitted i, FundEvent.progress i h]
            = fundApply (fundApply (foldFund st (fundWallets env i)) (FundEvent.submitted i))
                (FundEvent.progress i h) from rfl]
        simp only [fundApply]
        exact statusAt_setStatus_self _ i Status.funding (by simpa [fundApply_length] using hlen2)
      · simp [foldFund, fundApply]

/-- C5: funding is strictly sequential in ascending fleet-index order (the
trace's index sequence is sorted, and the per-index events are contiguous, so
at most one transfer is in flight); the success callback fires for index i
exactly when the network confirmed that transfer (`tx.wait(1)` succeeded),
and it then marks the wallet's status funding and appends a success log entry
carrying the transaction hash; every index is attempted regardless of earlier
failures. -/
theorem c5_funding_sequential_confirmed_besteffort (env : ChainEnv) (n : Nat) :
    List.Sorted (· ≤ ·) ((fundWallets env n).map FundEvent.index)
    ∧ (∀ i, i < n → ∃ e ∈ fundWallets env n, FundEvent.index e = i)
    ∧ (∀ (i : Nat) (h : String),
        FundEvent.progress i h ∈ fundWallets env n
          ↔ (i < n ∧ env.fundOutcome i = FundOutcome.ok h))
    ∧ (∀ (st : FundState) (i : Nat) (h : String),
        st.wallets.length = n → i < n → env.fundOutcome i = FundOutcome.ok h →
        statusAt (runFundWallets env st).wallets i = some Status.funding
        ∧ fundedLog i h ∈ (runFundWallets env st).logs) := by
  refine ⟨fundWallets_sorted env n, ?_, fun i h => progress_mem_fundWallets env n i h, ?_⟩
  · intro i hin
    rcases fundStep_has_its_index env i with ⟨e, he, hi⟩
    exact ⟨e, List.mem_flatMap.mpr ⟨i, List.mem_range.mpr hin, he⟩, hi⟩
  · intro st i h hlen hin hok
    have : runFundWallets env st = foldFund st (fundWallets env n) := by
      rw [runFundWallets, hlen]; rfl
    rw [this]
    exact foldFund_funding_result env n st i h hin (by omega) hok

/-- Fund state with two wallets for the C5 witness. -/
def stF : FundState :=
  { wallets := [walletA, walletA], logs := [] }

/-- Witness for C5 at a concrete input: for a two-wallet fleet in `envA`
(every transfer confirmed), index 1 is attempted, the callback for index 0
fires with hash "0xf0", and after the run wallet 0 has status funding with
the success log entry present. -/
theorem c5_funding_sequential_confirmed_besteffort_witness :
    (∃ e ∈ fundWallets envA 2, FundEvent.index e = 1)
    ∧ (FundEvent.progress 0 "0xf0" ∈ fundWallets envA 2
        ↔ (0 < 2 ∧ envA.fundOutcome 0 = FundOutcome.ok "0xf0"))
    ∧ (statusAt (runFundWallets envA stF).wallets 0 = some Status.funding
       ∧ fundedLog 0 "0xf0" ∈ (runFundWallets envA stF).logs) :=
  ⟨(c5_funding_sequential_confirmed_besteffort envA 2).2.1 1 (by decide),
   (c5_funding_sequential_confirmed_besteffort envA 2).2.2.1 0 "0xf0",
   (c5_funding_sequential_confirmed_besteffort envA 2).2.2.2 stF 0 "0xf0" rfl (by decide) rfl⟩

/-- C6: with no fund or swarm in flight, starting a swarm with an empty
target address or an empty fleet fails before side effects begin: the event
trace is empty (no transaction is built or submitted), the fleet and the
aggregate stats — hence every wallet's status — are exactly as before, and
the only observable effect is one error log entry. -/
theorem c6_preconditions_abort_without_side_effects (env : ChainEnv) (cfg : SwarmConfig)
    (st : AppState) (hf : st.isFunding = false) (hs : st.isSwarming = false)
    (h : cfg.targetContract = "" ∨ st.wallets = []) :
    (handleStartSwarm env cfg st).2 = []
    ∧ (handleStartSwarm env cfg st).1.wallets = st.wallets
    ∧ (handleStartSwarm env cfg st).1.stats = st.stats
    ∧ ∃ e : LogEntry, e.type = LogType.ERROR
        ∧ (handleStartSwarm env cfg st).1.logs = st.logs ++ [e] := by
  have hbusy : (st.isFunding || st.isSwarming) = false := by rw [hf, hs]; rfl
  unfold handleStartSwarm
  rw [hbusy]
  simp only [Bool.false_eq_true, if_false]
  rcases h with ht | hw
  · rw [if_pos ht]
    exact ⟨rfl, rfl, rfl, errLog "Target Contract address required", rfl, rfl⟩
  · by_cases ht : cfg.targetContract = ""
    · rw [if_pos ht]
      exact ⟨rfl, rfl, rfl, errLog "Target Contract address required", rfl, rfl⟩
    · rw [if_neg ht, if_pos (by rw [hw]; rfl)]
      exact ⟨rfl, rfl, rfl, errLog "No active fleet. Generate or Fund first.", rfl, rfl⟩

/-- Idle app state with an empty fleet and dirty stats for the C6 witness. -/
def stE : AppState :=
  { isFunding := false
    isSwarming := false
    wallets := []
    stats := { totalTx := 4, successfulTx := 4, failedTx := 0 }
    logs := [infoLog "System Ready. Waiting for Celo Mainnet command."] }

/-- Witness for C6 at a concrete input: starting a swarm on an empty fleet
changes nothing but the log. -/
theorem c6_preconditions_abort_without_side_effects_witness :
    (handleStartSwarm envA cfgA stE).2 = []
    ∧ (handleStartSwarm envA cfgA stE).1.wallets = stE.wallets
    ∧ (handleStartSwarm envA cfgA stE).1.stats = stE.stats
    ∧ ∃ e : LogEntry, e.type = LogType.ERROR
        ∧ (handleStartSwarm envA cfgA stE).1.logs = stE.logs ++ [e] :=
  c6_preconditions_abort_without_side_effects envA cfgA stE rfl rfl (Or.inr rfl)

lemma createWalletsFromKeys_counts (env : ChainEnv) :
    ∀ keys : List String,
      (createWalletsFromKeys env keys).1.length
        = keys.countP (fun k => !(trimJS k == "") && env.validKey (trimJS k))
      ∧ (createWalletsFromKeys env keys).2.length
        = keys.countP (fun k => !(trimJS k == "") && !env.validKey (trimJS k)) := by
  intro keys
  induction keys with
  | nil => exact ⟨rfl, rfl⟩
  | cons k keys ih =>
    by_cases hb : trimJS k = ""
    · simp [createWalletsFromKeys, hb, List.countP_cons, ih.1, ih.2]
    · by_cases hv : env.validKey (trimJS k) = true
      · simp [createWalletsFromKeys, hb, hv, List.countP_cons, ih.1, ih.2]
      · have hv2 : env.validKey (trimJS k) = false := by
          cases hvv : env.validKey (trimJS k)
          · rfl
          · exact absurd hvv hv
        simp [createWalletsFromKeys, hb, hv2, List.countP_cons, ih.1, ih.2]

lemma createWalletsFromKeys_warnings_type (env : ChainEnv) :
    ∀ keys : List String, ∀ e ∈ (createWalletsFromKeys env keys).2, e.type = LogType.WARNING := by
  intro keys
  induction keys with
  | nil => intro e he; simp [createWalletsFromKeys] at he
  | cons k keys ih =>
    intro e he
    by_cases hb : trimJS k = ""
    · rw [show (createWalletsFromKeys env (k :: keys)).2 = (createWalletsFromKeys env keys).2 from by
        simp [createWalletsFromKeys, hb]] at he
      exact ih e he
    · by_cases hv : env.validKey (trimJS k) = true
      · rw [show (createWalletsFromKeys env (k :: keys)).2 = (createWalletsFromKeys env keys).2 from by
          simp [createWalletsFromKeys, hb, hv]] at he
        exact ih e he
      · have hv2 : env.validKey (trimJS k) = false := by
          cases hvv : env.validKey (trimJS k)
          · rfl
          · exact absurd hvv hv
        rw [show (createWalletsFromKeys env (k :: keys)).2
            = importWarn k :: (createWalletsFromKeys env keys).2 from by
          simp [createWalletsFromKeys, hb, hv2]] at he
        rcases List.mem_cons.mp he with rfl | he
        · rfl
        · exact ih e he

/-- C7: the imported fleet has exactly one wallet per input line whose
trimmed content parses as a valid private key, with blank lines skipped; each
invalid non-blank line yields zero wallets and exactly one warning-level
entry; and when zero valid keys remain, `prepareFleet` fails with an error
log, returns no wallets, and the fleet stays empty (the source reaches
`prepareFleet` only with an empty fleet and does not touch it on failure). -/
theorem c7_import_counts_and_failure (env : ChainEnv) (keys : List String) (importText : String) :
    (createWalletsFromKeys env keys).1.length
        = keys.countP (fun k => !(trimJS k == "") && env.validKey (trimJS k))
    ∧ (createWalletsFromKeys env keys).2.length
        = keys.countP (fun k => !(trimJS k == "") && !env.validKey (trimJS k))
    ∧ (∀ e ∈ (createWalletsFromKeys env keys).2, e.type = LogType.WARNING)
    ∧ ((createWalletsFromKeys env (splitLines importText)).1 = [] →
        (prepareFleet env importText []).wallets = []
        ∧ (prepareFleet env importText []).returned = []
        ∧ errLog "No valid keys found in import." ∈ (prepareFleet env importText []).logs) := by
  refine ⟨(createWalletsFromKeys_counts env keys).1, (createWalletsFromKeys_counts env keys).2,
    createWalletsFromKeys_warnings_type env keys, ?_⟩
  intro hempty
  have h0 : (createWalletsFromKeys env (splitLines importText)).1.length = 0 := by
    rw [hempty]; rfl
  unfold prepareFleet
  simp [h0]

/-- Environment in which no key is valid, for the C7 witness. -/
def envN : ChainEnv :=
  { validKey := fun _ => false
    addrOf := fun k => k
    normKey := fun k => k
    balanceResult := fun _ => some "0"
    nonceResult := fun _ => none
    sendTx := fun _ _ => SubmitOutcome.rejected "invalid sender"
    fundOutcome := fun _ => FundOutcome.sendFail }

/-- Witness for C7 at a concrete input: an import whose only line is invalid
fails, returns no wallets, and leaves the fleet empty. -/
theorem c7_import_counts_and_failure_witness :
    (prepareFleet envN "zz" []).wallets = []
    ∧ (prepareFleet envN "zz" []).returned = []
    ∧ errLog "No valid keys found in import." ∈ (prepareFleet envN "zz" []).logs :=
  (c7_import_counts_and_failure envN [] "zz").2.2.2 (by decide)

/-- C8: a click of the reset-fleet control while a fund or swarm operation is
in flight is a no-op (the button is disabled, so the whole state — fleet and
stats included — is unchanged); a click while idle clears the fleet to empty
and zeroes the aggregate stats. -/
theorem c8_reset_noop_when_busy_clears_when_idle (st : AppState) :
    ((st.isFunding || st.isSwarming) = true → resetFleetClick st = st)
    ∧ ((st.isFunding || st.isSwarming) = false →
        (resetFleetClick st).wallets = [] ∧ (resetFleetClick st).stats = statsZero) := by
  constructor
  · intro h
    unfold resetFleetClick
    rw [h]
    rfl
  · intro h
    unfold resetFleetClick
    rw [h]
    exact ⟨rfl, rfl⟩

/-- App state with a swarm reported in flight for the C8 witness. -/
def stBusy : AppState :=
  { isFunding := false
    isSwarming := true
    wallets := [walletA]
    stats := { totalTx := 3, successfulTx := 2, failedTx := 1 }
    logs := [] }

/-- Witness for C8 at concrete inputs: reset is a no-op on the busy state and
clears fleet and stats on the idle state. -/
theorem c8_reset_noop_when_busy_clears_when_idle_witness :
    resetFleetClick stBusy = stBusy
    ∧ (resetFleetClick stD).wallets = [] ∧ (resetFleetClick stD).stats = statsZero :=
  ⟨(c8_reset_noop_when_busy_clears_when_idle stBusy).1 rfl,
   (c8_reset_noop_when_busy_clears_when_idle stD).2 rfl⟩

lemma updateFleetBalances_length (env : ChainEnv) :
    ∀ ws : List WalletAccount, (updateFleetBalances env ws).length = ws.length := by
  intro ws
  induction ws with
  | nil => rfl
  | cons w ws ih => simp [updateFleetBalances, ih]

lemma updateFleetBalances_get (env : ChainEnv) :
    ∀ (ws : List WalletAccount) (i : Nat),
      (updateFleetBalances env ws).get? i
        = (ws.get? i).map (fun w => { w with balance := getBalance env w.address }) := by
  intro ws
  induction ws with
  | nil => intro i; cases i <;> rfl
  | cons w ws ih =>
    intro i
    cases i with
    | zero => rfl
    | succ i => simpa [updateFleetBalances] using ih i

/-- C9: `updateFleetBalances` preserves the fleet's length and, for every
wallet, replaces only the balance field — address, privateKey, txCount and
status are whatever they were — with the wallet's own queried balance, which
is "0" exactly when that wallet's query fails; each wallet's result depends
only on its own query, so one failure cannot abort the others. -/
theorem c9_refresh_balances_frame (env : ChainEnv) (ws : List WalletAccount) :
    (updateFleetBalances env ws).length = ws.length
    ∧ (∀ i : Nat, (updateFleetBalances env ws).get? i
        = (ws.get? i).map (fun w => { w with balance := getBalance env w.address }))
    ∧ (∀ a : String, getBalance env a = (env.balanceResult a).getD "0") := by
  refine ⟨updateFleetBalances_length env ws, updateFleetBalances_get env ws, fun a => ?_⟩
  unfold getBalance
  cases env.balanceResult a <;> rfl

lemma createWalletsFromKeys_filter_map (env : ChainEnv) (h0 : env.validKey "" = false) :
    ∀ keys : List String,
      (createWalletsFromKeys env keys).1
        = (keys.filter (fun k => isValidPrivateKey env (trimJS k))).map
            (fun k => walletFromKey env (trimJS k)) := by
  intro keys
  induction keys with
  | nil => rfl
  | cons k keys ih =>
    by_cases hb : trimJS k = ""
    · have hv : isValidPrivateKey env "" = false := h0
      simp [createWalletsFromKeys, hb, List.filter_cons, hv, ih]
    · by_cases hv : env.validKey (trimJS k) = true
      · simp [createWalletsFromKeys, hb, hv, List.filter_cons, isValidPrivateKey, ih]
      · have hv2 : env.validKey (trimJS k) = false := by
          cases hvv : env.validKey (trimJS k)
          · rfl
          · exact absurd hvv hv
        simp [createWalletsFromKeys, hb, hv2, List.filter_cons, isValidPrivateKey, ih]

/-- C10: import and key validation agree up to trimming — a singleton import
yields one wallet exactly when the line is non-blank and its trimmed form
passes `isValidPrivateKey`, and in general `createWalletsFromKeys` returns,
in input order, one wallet per element whose trimmed form is valid (the
hypothesis that the empty string is not a valid key reflects the chain
client, where constructing a wallet from "" throws). -/
theorem c10_import_agrees_with_validation (env : ChainEnv) (h0 : env.validKey "" = false)
    (k : String) (keys : List String) :
    (createWalletsFromKeys env [k]).1.length
        = (if trimJS k ≠ "" ∧ isValidPrivateKey env (trimJS k) = true then 1 else 0)
    ∧ (createWalletsFromKeys env keys).1
        = (keys.filter (fun k2 => isValidPrivateKey env (trimJS k2))).map
            (fun k2 => walletFromKey env (trimJS k2)) := by
  refine ⟨?_, createWalletsFromKeys_filter_map env h0 keys⟩
  by_cases hb : trimJS k = ""
  · simp [createWalletsFromKeys, hb]
  · by_cases hv : env.validKey (trimJS k) = true
    · simp [createWalletsFromKeys, hb, hv, isValidPrivateKey]
    · have hv2 : env.validKey (trimJS k) = false := by
        cases hvv : env.validKey (trimJS k)
        · rfl
        · exact absurd hvv hv
      simp [createWalletsFromKeys, hb, hv2, isValidPrivateKey]

/-- Environment where exactly the key "0xgood" is valid, for the C10 witness. -/
def envK : ChainEnv :=
  { validKey := fun s => s == "0xgood"
    addrOf := fun k => k
    normKey := fun k => k
    balanceResult := fun _ => some "0"
    nonceResult := fun _ => some 0
    sendTx := fun _ _ => SubmitOutcome.rejected "unused"
    fundOutcome := fun _ => FundOutcome.sendFail }

/-- Witness for C10 at concrete inputs: a padded valid line imports as one
wallet, and a mixed list filters to exactly the valid lines in order. -/
theorem c10_import_agrees_with_validation_witness :
    (createWalletsFromKeys envK [" 0xgood "]).1.length
        = (if trimJS " 0xgood " ≠ "" ∧ isValidPrivateKey envK (trimJS " 0xgood ") = true
           then 1 else 0)
    ∧ (createWalletsFromKeys envK ["bad", "", " 0xgood "]).1
        = ((["bad", "", " 0xgood "].filter (fun k2 => isValidPrivateKey envK (trimJS k2))).map
            (fun k2 => walletFromKey envK (trimJS k2))) :=
  c10_import_agrees_with_validation envK (by decide) " 0xgood " ["bad", "", " 0xgood "]

end CeloShip
